import Mathlib

/-!
Verification development for the cookie-vault backup codec and restore
reconciler.

The development shallowly embeds two source modules:

* the encrypted-backup codec (`encryptData` / `decryptData` and their helpers),
  which packs a cookie list into a versioned JSON envelope (single-pass V3 for
  small plaintexts, chunked V4 for large ones) and decodes V2/V3/V4 plus a
  legacy SJCL container; and
* the cookie utilities (`restoreCookies`, `groupCookiesByDomain`).

Platform externals are modelled explicitly:

* Wire text is modelled as `List Nat` (the code-unit sequence a `TextEncoder`
  would produce); `TextEncoder` / `TextDecoder` thereby become identities.
* `JSON.stringify` / `JSON.parse` of the cookie payload are modelled by a
  concrete injective serializer `serializeCookies` with its partial-inverse
  `parseCookies`; a parse failure models the `SyntaxError` the code catches.
* AES-GCM and PBKDF2 (Web Crypto) are modelled as an ideal authenticated
  cipher: a ciphertext records the key and nonce it was produced under, and
  decryption succeeds exactly when both match.
* SHA-256 (Web Crypto) is modelled as an ideal injective digest returning a
  nonempty string.
-/

namespace CookieVault

/-- Wire bytes, modelled as natural numbers. -/
abbrev Bytes := List Nat

/-! ### A concrete injective serializer (model of JSON.stringify + TextEncoder) -/

/-- Fuelled little-endian base-128 encoding of a natural number; the fuel is
structural so that concrete evaluation reduces in the kernel.  Digits below 128
terminate the number, digits in `[128, 256)` carry a continuation. -/
def encNatFuel : Nat → Nat → Bytes
  | 0, _ => []
  | fuel + 1, n => if n < 128 then [n] else (n % 128 + 128) :: encNatFuel fuel (n / 128)

/-- Self-delimiting encoding of a natural number. -/
def encNat (n : Nat) : Bytes := encNatFuel (n + 1) n

/-- Decoder for `encNat`; returns the value and the unconsumed rest. -/
def decNat : Bytes → Option (Nat × Bytes)
  | [] => none
  | b :: rest =>
    if b < 128 then some (b, rest)
    else
      match decNat rest with
      | some (m, rest2) => some (m * 128 + (b - 128), rest2)
      | none => none

theorem decNat_encNatFuel (fuel : Nat) :
    ∀ n rest, n < fuel → decNat (encNatFuel fuel n ++ rest) = some (n, rest) := by
  induction fuel with
  | zero => intro n rest h; omega
  | succ fuel ih =>
    intro n rest h
    by_cases hn : n < 128
    · simp [encNatFuel, hn, decNat]
    · have hrec : n / 128 < fuel := by
        have h1 : n / 128 < n := Nat.div_lt_self (by omega) (by omega)
        omega
      have hd : ¬ (n % 128 + 128 < 128) := by omega
      simp only [encNatFuel, if_neg hn, List.cons_append, decNat, if_neg hd,
        ih (n / 128) rest hrec]
      have hmod : n / 128 * 128 + n % 128 = n := by
        have := Nat.div_add_mod n 128
        omega
      simp [hmod]

@[simp] theorem decNat_encNat (n : Nat) (rest : Bytes) :
    decNat (encNat n ++ rest) = some (n, rest) :=
  decNat_encNatFuel (n + 1) n rest (Nat.lt_succ_self n)

/-- Encoding of an integer: a sign byte followed by the magnitude. -/
def encInt : Int → Bytes
  | .ofNat n => 0 :: encNat n
  | .negSucc n => 1 :: encNat n

def decInt : Bytes → Option (Int × Bytes)
  | 0 :: rest => (decNat rest).map fun p => (Int.ofNat p.1, p.2)
  | 1 :: rest => (decNat rest).map fun p => (Int.negSucc p.1, p.2)
  | _ => none

@[simp] theorem decInt_encInt (i : Int) (rest : Bytes) :
    decInt (encInt i ++ rest) = some (i, rest) := by
  cases i <;> simp [encInt, decInt]

/-- Encoding of a rational (model of a JS number): numerator then denominator. -/
def encRat (q : Rat) : Bytes := encInt q.num ++ encNat q.den

def decRat (l : Bytes) : Option (Rat × Bytes) :=
  match decInt l with
  | none => none
  | some (n, rest) =>
    match decNat rest with
    | none => none
    | some (d, rest2) => some (mkRat n d, rest2)

@[simp] theorem decRat_encRat (q : Rat) (rest : Bytes) :
    decRat (encRat q ++ rest) = some (q, rest) := by
  simp [encRat, decRat, List.append_assoc, Rat.mkRat_self]

def encBool (b : Bool) : Bytes := [if b then 1 else 0]

def decBool : Bytes → Option (Bool × Bytes)
  | 0 :: rest => some (false, rest)
  | 1 :: rest => some (true, rest)
  | _ => none

@[simp] theorem decBool_encBool (b : Bool) (rest : Bytes) :
    decBool (encBool b ++ rest) = some (b, rest) := by
  cases b <;> simp [encBool, decBool]

/-- Encoding of a string: its length, then its characters as code points. -/
def encString (s : String) : Bytes := encNat s.length ++ s.data.map Char.toNat

def decString (l : Bytes) : Option (String × Bytes) :=
  match decNat l with
  | none => none
  | some (n, rest) =>
    if n ≤ rest.length then some (String.mk ((rest.take n).map Char.ofNat), rest.drop n)
    else none

theorem str_length_data (s : String) : s.length = s.data.length := rfl

@[simp] theorem decString_encString (s : String) (rest : Bytes) :
    decString (encString s ++ rest) = some (s, rest) := by
  have hlen : (s.data.map Char.toNat).length = s.data.length := List.length_map _ _
  simp only [encString, List.append_assoc, decString, decNat_encNat]
  have hle : s.length ≤ (s.data.map Char.toNat ++ rest).length := by
    rw [List.length_append, hlen, ← str_length_data]
    omega
  rw [if_pos hle]
  have ht : (s.data.map Char.toNat ++ rest).take s.length = s.data.map Char.toNat := by
    rw [str_length_data, ← hlen, List.take_left]
  have hd : (s.data.map Char.toNat ++ rest).drop s.length = rest := by
    rw [str_length_data, ← hlen, List.drop_left]
  rw [ht, hd, List.map_map]
  have hid : s.data.map (Char.ofNat ∘ Char.toNat) = s.data := by
    simp [Function.comp_def, Char.ofNat_toNat]
  rw [hid]

def encOption (enc : α → Bytes) : Option α → Bytes
  | none => [0]
  | some a => 1 :: enc a

def decOption (dec : Bytes → Option (α × Bytes)) : Bytes → Option (Option α × Bytes)
  | 0 :: rest => some (none, rest)
  | 1 :: rest => (dec rest).map fun p => (some p.1, p.2)
  | _ => none

theorem decOption_encOption (enc : α → Bytes) (dec : Bytes → Option (α × Bytes))
    (h : ∀ a rest, dec (enc a ++ rest) = some (a, rest)) (o : Option α) (rest : Bytes) :
    decOption dec (encOption enc o ++ rest) = some (o, rest) := by
  cases o <;> simp [encOption, decOption, h]

/-! ### Cookie records (src/unnamed/part_004, `interface Cookie`) -/

/-- The `sameSite` policy values of the Chrome cookie API. -/
inductive SameSite
  | no_restriction
  | lax
  | strict
  | unspecified
deriving DecidableEq, Repr, Inhabited

/-- Cookie record, mirroring the source `Cookie` interface field by field.
Optional numbers (`expirationDate`) are JS numbers, modelled as rationals. -/
structure Cookie where
  name : String
  value : String
  domain : String
  path : String
  secure : Bool
  httpOnly : Bool
  expirationDate : Option Rat := none
  storeId : String
  sameSite : Option SameSite := none
  session : Option Bool := none
  hostOnly : Option Bool := none
deriving DecidableEq, Repr, Inhabited

def encSameSite : SameSite → Bytes
  | .no_restriction => [0]
  | .lax => [1]
  | .strict => [2]
  | .unspecified => [3]

def decSameSite : Bytes → Option (SameSite × Bytes)
  | 0 :: rest => some (.no_restriction, rest)
  | 1 :: rest => some (.lax, rest)
  | 2 :: rest => some (.strict, rest)
  | 3 :: rest => some (.unspecified, rest)
  | _ => none

@[simp] theorem decSameSite_encSameSite (x : SameSite) (rest : Bytes) :
    decSameSite (encSameSite x ++ rest) = some (x, rest) := by
  cases x <;> simp [encSameSite, decSameSite]

/-- Field-by-field serialization of one cookie record. -/
def encCookie (c : Cookie) : Bytes :=
  encString c.name ++ encString c.value ++ encString c.domain ++ encString c.path ++
    encBool c.secure ++ encBool c.httpOnly ++ encOption encRat c.expirationDate ++
    encString c.storeId ++ encOption encSameSite c.sameSite ++
    encOption encBool c.session ++ encOption encBool c.hostOnly

def decCookie (l : Bytes) : Option (Cookie × Bytes) :=
  match decString l with
  | none => none
  | some (name, r1) =>
  match decString r1 with
  | none => none
  | some (value, r2) =>
  match decString r2 with
  | none => none
  | some (domain, r3) =>
  match decString r3 with
  | none => none
  | some (path, r4) =>
  match decBool r4 with
  | none => none
  | some (secure, r5) =>
  match decBool r5 with
  | none => none
  | some (httpOnly, r6) =>
  match decOption decRat r6 with
  | none => none
  | some (expirationDate, r7) =>
  match decString r7 with
  | none => none
  | some (storeId, r8) =>
  match decOption decSameSite r8 with
  | none => none
  | some (sameSite, r9) =>
  match decOption decBool r9 with
  | none => none
  | some (sess, r10) =>
  match decOption decBool r10 with
  | none => none
  | some (hostOnly, r11) =>
    some ({ name, value, domain, path, secure, httpOnly, expirationDate,
            storeId, sameSite, session := sess, hostOnly }, r11)

@[simp] theorem decCookie_encCookie (c : Cookie) (rest : Bytes) :
    decCookie (encCookie c ++ rest) = some (c, rest) := by
  simp [encCookie, decCookie, List.append_assoc,
    decOption_encOption encRat decRat decRat_encRat,
    decOption_encOption encSameSite decSameSite decSameSite_encSameSite,
    decOption_encOption encBool decBool decBool_encBool]

def decCookies : Nat → Bytes → Option (List Cookie × Bytes)
  | 0, rest => some ([], rest)
  | n + 1, rest =>
    match decCookie rest with
    | none => none
    | some (c, r2) =>
      match decCookies n r2 with
      | none => none
      | some (cs, r3) => some (c :: cs, r3)

/-- Model of `JSON.stringify` composed with `TextEncoder.encode` on a cookie
list: the wire image of the JSON text of the records. -/
def serializeCookies (l : List Cookie) : Bytes :=
  encNat l.length ++ (l.map encCookie).flatten

/-- Model of `JSON.parse` on decrypted backup text: the partial inverse of
`serializeCookies`; `none` models the `SyntaxError` thrown on malformed text
(including trailing garbage such as zero padding). -/
def parseCookies (l : Bytes) : Option (List Cookie) :=
  match decNat l with
  | none => none
  | some (n, rest) =>
    match decCookies n rest with
    | some (cs, []) => some cs
    | _ => none

theorem decCookies_enc (l : List Cookie) (rest : Bytes) :
    decCookies l.length ((l.map encCookie).flatten ++ rest) = some (l, rest) := by
  induction l generalizing rest with
  | nil => simp [decCookies]
  | cons c cs ih => simp [decCookies, List.append_assoc, ih]

@[simp] theorem parseCookies_serializeCookies (l : List Cookie) :
    parseCookies (serializeCookies l) = some l := by
  have h := decCookies_enc l []
  simp only [List.append_nil] at h
  simp [parseCookies, serializeCookies, decNat_encNat, h]

/-! ### Ideal models of the Web Crypto externals -/

/-- A key derived by PBKDF2 (Web Crypto external).  PBKDF2 with fixed
iteration count and hash is deterministic in password and salt, and the model
treats it as injective (an ideal KDF), so the key simply records both. -/
structure DKey where
  password : String
  salt : Bytes
deriving DecidableEq, Repr, Inhabited

/-- Derive a key from password and salt (models the importKey/deriveKey pair
with PBKDF2, 100000 iterations, SHA-256, AES-GCM 256). -/
def deriveKey (password : String) (salt : Bytes) : DKey := ⟨password, salt⟩

/-- An AES-GCM ciphertext in the ideal-cipher model: it records the key and
nonce it was produced under together with the plaintext; authenticated
decryption succeeds exactly when key and nonce match. -/
structure Ctxt where
  key : DKey
  iv : Bytes
  plaintext : Bytes
deriving DecidableEq, Repr, Inhabited

/-- Model of `crypto.subtle.encrypt` with AES-GCM. -/
def aesGcmEncrypt (key : DKey) (iv : Bytes) (plaintext : Bytes) : Ctxt :=
  ⟨key, iv, plaintext⟩

/-- Model of `crypto.subtle.decrypt` with AES-GCM: `none` models the exception
thrown on an authentication-tag mismatch (wrong key or wrong nonce). -/
def aesGcmDecrypt (key : DKey) (iv : Bytes) (ct : Ctxt) : Option Bytes :=
  if ct.key = key ∧ ct.iv = iv then some ct.plaintext else none

/-- Model of `generateChecksum` (src/src/utils/password.ts): SHA-256 of the
text, hex encoded.  The digest is modelled as an ideal injective hash whose
output is a nonempty string. -/
def generateChecksum (text : Bytes) : String :=
  "h" ++ toString text

/-- Model of `verifyChecksum` (src/src/utils/password.ts): recompute and
compare. -/
def verifyChecksum (text : Bytes) (expectedHash : String) : Bool :=
  generateChecksum text == expectedHash

theorem generateChecksum_ne_empty (text : Bytes) : generateChecksum text ≠ "" := by
  intro h
  have hl := congrArg String.length h
  rw [generateChecksum, String.length_append] at hl
  simp at hl
  exact absurd hl.1 (by decide)

/-- An SJCL ciphertext (external `sjcl` library), again as an ideal
authenticated cipher: it records the password and the plaintext. -/
structure SjclCt where
  password : String
  plaintext : Bytes
deriving DecidableEq, Repr, Inhabited

/-- Model of `sjcl.decrypt`: the thrown message on a tag mismatch is the one
the library raises. -/
def sjclDecrypt (password : String) (ct : SjclCt) : Except String Bytes :=
  if ct.password == password then .ok ct.plaintext else .error "ccm: tag does not match"

/-- Randomness consumed by one encryption call (`crypto.getRandomValues`):
a salt and one nonce per chunk index. -/
structure RandomTape where
  salt : Bytes
  iv : Nat → Bytes

/-! ### The wire envelope (parsed JSON object of a backup file) -/

/-- One entry of a V4 `chunks` array. -/
structure ChunkRec where
  iv : Bytes
  data : Ctxt
deriving DecidableEq, Repr, Inhabited

/-- The parsed JSON envelope of a backup file, with one optional field per key
the decoder inspects.  Ciphertext fields hold ideal-cipher values; the legacy
SJCL body is represented by its `ct` field.  JS truthiness: a present array or
object field is always truthy, a string is truthy iff nonempty, a number is
truthy iff nonzero. -/
structure Envelope where
  version : Option String := none
  salt : Option Bytes := none
  iv : Option Bytes := none
  data : Option Ctxt := none
  checksum : Option String := none
  chunks : Option (List ChunkRec) := none
  chunkSize : Option Nat := none
  totalSize : Option Nat := none
  v : Option Nat := none
  iter : Option Nat := none
  mode : Option String := none
  ct : Option SjclCt := none
deriving Repr, Inhabited

/-- JS truthiness of a possibly-absent string field. -/
def truthyStr : Option String → Bool
  | none => false
  | some s => !(s == "")

/-- JS truthiness of a possibly-absent number field. -/
def truthyNat : Option Nat → Bool
  | none => false
  | some n => !(n == 0)

/-! ### Encryption (src/unnamed/part_004) -/

/-- The fixed chunk threshold of `encryptData`: 1 MiB. -/
def chunkSize : Nat := 1024 * 1024

/-- Model of `encryptSinglePass`: fresh salt and nonce from the tape, derived
key, one AES-GCM pass, checksum of the original text, packed as a `v3`
envelope. -/
def encryptSinglePass (rawData : Bytes) (password : String) (tape : RandomTape) : Envelope :=
  let salt := tape.salt
  let iv := tape.iv 0
  let key := deriveKey password salt
  { version := some "v3"
    salt := some salt
    iv := some iv
    data := some (aesGcmEncrypt key iv rawData)
    checksum := some (generateChecksum rawData) }

/-- Model of `encryptChunked`: one shared salt and key, `Math.ceil` chunk
count, per-chunk slice `dataBytes.slice(i*chunkSize, min((i+1)*chunkSize,
total))` with its own nonce, packed as a `v4` envelope. -/
def encryptChunked (rawData : Bytes) (dataBytes : Bytes) (password : String)
    (cs : Nat) (tape : RandomTape) : Envelope :=
  let totalBytes := dataBytes.length
  let numChunks := (totalBytes + cs - 1) / cs
  let salt := tape.salt
  let key := deriveKey password salt
  let encryptedChunks := (List.range numChunks).map fun i =>
    let chunk := (dataBytes.drop (i * cs)).take cs
    let iv := tape.iv i
    ChunkRec.mk iv (aesGcmEncrypt key iv chunk)
  { version := some "v4"
    salt := some salt
    chunks := some encryptedChunks
    chunkSize := some cs
    totalSize := some totalBytes
    checksum := some (generateChecksum rawData) }

/-- Model of `encryptData`: serialize the records, then single-pass (V3) when
the byte length is at most the 1 MiB threshold, chunked (V4) otherwise. -/
def encryptData (records : List Cookie) (password : String) (tape : RandomTape) : Envelope :=
  let rawData := serializeCookies records
  let dataBytes := rawData
  if dataBytes.length ≤ chunkSize then encryptSinglePass rawData password tape
  else encryptChunked rawData dataBytes password chunkSize tape

/-- Model of the older writer `encryptData` in src/src/utils/crypto.ts, which
emits the V2 envelope (no checksum). -/
def encryptDataV2 (records : List Cookie) (password : String) (tape : RandomTape) : Envelope :=
  let rawData := serializeCookies records
  let salt := tape.salt
  let iv := tape.iv 0
  let key := deriveKey password salt
  { version := some "v2"
    salt := some salt
    iv := some iv
    data := some (aesGcmEncrypt key iv rawData) }

/-! ### Decryption (src/unnamed/part_004) -/

/-- The errors `decryptData` can surface.  `auth` is the uniform
wrong-password/corruption failure, `integrity` the checksum mismatch,
`unknownFormat` the unrecognized-envelope failure, and `raw` an error
rethrown verbatim from the legacy path. -/
inductive DecErr
  | auth
  | integrity
  | unknownFormat
  | raw (msg : String)
deriving DecidableEq, Repr

instance exceptDecEq {ε α : Type} [DecidableEq ε] [DecidableEq α] :
    DecidableEq (Except ε α) := fun x y =>
  match x, y with
  | .ok a, .ok b =>
    if h : a = b then isTrue (by rw [h]) else isFalse (by simp [h])
  | .error a, .error b =>
    if h : a = b then isTrue (by rw [h]) else isFalse (by simp [h])
  | .ok _, .error _ => isFalse (by simp)
  | .error _, .ok _ => isFalse (by simp)

/-- The user-facing message of each error, as thrown by the source. -/
def DecErr.message : DecErr → String
  | .auth => "Incorrect password or corrupted file"
  | .integrity => "Backup file corrupted (checksum mismatch)"
  | .unknownFormat => "Unknown file format"
  | .raw msg => msg

/-- Substring test (models `String.prototype.indexOf(pat) !== -1` for a
nonempty pattern). -/
def strContains (s pat : String) : Bool :=
  (s.splitOn pat).length != 1

/-- Shared tail of the decrypt paths: `JSON.parse(decryptedText)`; a parse
failure is a `SyntaxError` caught by the surrounding catch, which surfaces the
uniform auth message because it does not mention "checksum". -/
def parseDecrypted (text : Bytes) : Except DecErr (List Cookie) :=
  match parseCookies text with
  | some records => .ok records
  | none => .error .auth

/-- Model of `decryptWebCrypto` (V2/V3 path): derive the key, one AES-GCM
decryption, then — only for a `v3` envelope with a truthy checksum — checksum
verification, then JSON parse.  Any non-checksum exception in the try block
becomes the uniform auth error. -/
def decryptWebCrypto (json : Envelope) (password : String) : Except DecErr (List Cookie) :=
  let salt := json.salt.getD []
  let iv := json.iv.getD []
  let data := json.data.getD default
  let key := deriveKey password salt
  match aesGcmDecrypt key iv data with
  | none => .error .auth
  | some decryptedText =>
    if json.version == some "v3" && truthyStr json.checksum then
      if verifyChecksum decryptedText (json.checksum.getD "") then
        parseDecrypted decryptedText
      else .error .integrity
    else parseDecrypted decryptedText

/-- Sequential decryption of the stored chunk list (the for-loop of
`decryptChunked`); `none` models the first authentication failure aborting the
loop. -/
def decryptChunkList (key : DKey) : List ChunkRec → Option (List Bytes)
  | [] => some []
  | c :: cs =>
    match aesGcmDecrypt key c.iv c.data with
    | none => none
    | some pt =>
      match decryptChunkList key cs with
      | none => none
      | some pts => some (pt :: pts)

/-- Model of `Uint8Array.prototype.set`: splice `chunk` into `buf` at
`offset`.  Callers guard the bounds, so the result keeps the buffer length. -/
def setAt (buf : Bytes) (offset : Nat) (chunk : Bytes) : Bytes :=
  buf.take offset ++ chunk ++ buf.drop (offset + chunk.length)

/-- The chunk-reassembly loop of `decryptChunked`: write each decrypted chunk
at the running offset into a `totalSize` buffer.  `combined.set` throws a
`RangeError` when the write would run past the end of the buffer — that is the
only length-related check the code performs. -/
def combineChunks (buf : Bytes) (offset : Nat) : List Bytes → Except Unit Bytes
  | [] => .ok buf
  | chunk :: rest =>
    if offset + chunk.length > buf.length then .error ()
    else combineChunks (setAt buf offset chunk) (offset + chunk.length) rest

/-- Model of `decryptChunked` (V4 path): derive one key, decrypt every chunk
in stored order, splice them into a zero-initialized `totalSize` buffer, then
— only if the checksum field is truthy — verify the checksum, then JSON parse.
Any non-checksum exception in the try block (including the `RangeError` from
an out-of-bounds write) becomes the uniform auth error. -/
def decryptChunked (json : Envelope) (password : String) : Except DecErr (List Cookie) :=
  let salt := json.salt.getD []
  let chunks := json.chunks.getD []
  let key := deriveKey password salt
  match decryptChunkList key chunks with
  | none => .error .auth
  | some decryptedChunks =>
    let totalSize := json.totalSize.getD 0
    match combineChunks (List.replicate totalSize 0) 0 decryptedChunks with
    | .error _ => .error .auth
    | .ok combined =>
      if truthyStr json.checksum then
        if verifyChecksum combined (json.checksum.getD "") then
          parseDecrypted combined
        else .error .integrity
      else parseDecrypted combined

/-- Model of `decryptLegacy`: `sjcl.decrypt` then `JSON.parse`; an error whose
message mentions "corrupt" or "invalid" becomes the uniform auth error, any
other error is rethrown verbatim. -/
def decryptLegacy (json : Envelope) (password : String) : Except DecErr (List Cookie) :=
  match sjclDecrypt password (json.ct.getD default) with
  | .ok decrypted =>
    match parseCookies decrypted with
    | some records => .ok records
    | none => .error (.raw "Unexpected token in JSON")
  | .error msg =>
    if strContains msg "corrupt" || strContains msg "invalid" then .error .auth
    else .error (.raw msg)

/-- The decode path selected by `decryptData` for an envelope. -/
inductive DecodePath
  | v4
  | v23
  | legacy
  | unknown
deriving DecidableEq, Repr

/-- The structural dispatch of `decryptData` (lines 224-243 of the source),
condition for condition: `version === 'v4' && salt && chunks &&
Array.isArray(chunks)`, then `(version === 'v2' || version === 'v3') && salt
&& iv && data`, then the legacy sniff `iv && v && iter && mode && ct`. -/
def dispatchPath (json : Envelope) : DecodePath :=
  if json.version == some "v4" && json.salt.isSome && json.chunks.isSome then .v4
  else if (json.version == some "v2" || json.version == some "v3") &&
      json.salt.isSome && json.iv.isSome && json.data.isSome then .v23
  else if json.iv.isSome && truthyNat json.v && truthyNat json.iter &&
      truthyStr json.mode && json.ct.isSome then .legacy
  else .unknown

/-- Model of `decryptData`: dispatch on the envelope shape; an envelope
matching no known shape throws `Unknown file format`. -/
def decryptData (json : Envelope) (password : String) : Except DecErr (List Cookie) :=
  match dispatchPath json with
  | .v4 => decryptChunked json password
  | .v23 => decryptWebCrypto json password
  | .legacy => decryptLegacy json password
  | .unknown => .error .unknownFormat

/-! ### Cookie restoration (src/src/utils/cookies.ts, `restoreCookies`) -/

/-- Per-record outcome status. -/
inductive Status
  | success
  | skipped
  | failed
deriving DecidableEq, Repr

/-- Result detail for a single cookie restoration attempt
(`CookieRestoreDetail`). -/
structure CookieRestoreDetail where
  name : String
  domain : String
  status : Status
  reason : Option String := none
deriving DecidableEq, Repr

/-- Result of `restoreCookies` (`RestoreResult`). -/
structure RestoreResult where
  success : Nat
  failed : Nat
  skipped : Nat
  details : List CookieRestoreDetail
deriving DecidableEq, Repr

/-- The request object passed to `browser.cookies.set`, after the cleanup
steps (sameSite filtering, hostOnly domain deletion, session expiration
deletion). -/
structure SetDetails where
  url : String
  name : String
  value : String
  domain : Option String
  path : String
  secure : Bool
  httpOnly : Bool
  expirationDate : Option Rat
  sameSite : Option SameSite
deriving DecidableEq, Repr

/-- Model of `domain.startsWith('.')`: for the one-character prefix this is a
first-character test (spelled out so that it evaluates in the kernel). -/
def startsWithDot (s : String) : Bool :=
  match s.data with
  | [] => false
  | ch :: _ => ch == '.'

/-- Model of `domain.slice(1)` (equivalently `String.drop 1`): remove the
first character. -/
def dropFirst (s : String) : String := String.mk s.data.tail

/-- The `buildUrl` closure: scheme from the secure flag, one leading dot
stripped from the domain. -/
def buildUrl (secure : Bool) (domain : String) (path : String) : String :=
  "http" ++ (if secure then "s" else "") ++ "://" ++
    (if startsWithDot domain then dropFirst domain else domain) ++ path

/-- The expiry guard: `cookie.expirationDate && cookie.expirationDate <
Date.now() / 1000`.  A present value of `0` is falsy in JS, so it does not
trigger the skip. -/
def expiredSkip (now : Rat) (c : Cookie) : Bool :=
  match c.expirationDate with
  | none => false
  | some e => !(e == 0) && decide (e < now)

/-- The `setDetails` object built for the primary attempt. -/
def primaryDetails (c : Cookie) : SetDetails :=
  { url := buildUrl c.secure c.domain c.path
    name := c.name
    value := c.value
    domain := if c.hostOnly == some true then none else some c.domain
    path := c.path
    secure := c.secure
    httpOnly := c.httpOnly
    expirationDate := if c.session == some true then none else c.expirationDate
    sameSite :=
      if c.sameSite == some .no_restriction || c.sameSite == some .lax ||
          c.sameSite == some .strict then c.sameSite
      else none }

/-- The mutated `setDetails` of the HSTS-upgrade retry: `secure` forced true
and the URL rebuilt with https. -/
def retryDetails (c : Cookie) : SetDetails :=
  { primaryDetails c with secure := true, url := buildUrl true c.domain c.path }

/-- One iteration of the `restoreCookies` loop for a single record, against an
injected cookie store (`browser.cookies.set`, modelled as a function returning
either success or a thrown error message).  Returns the outcome detail and the
list of store calls made for this record, in order. -/
def restoreStep (now : Rat) (store : SetDetails → Except String Unit) (c : Cookie) :
    CookieRestoreDetail × List SetDetails :=
  if expiredSkip now c then
    ({ name := c.name, domain := c.domain, status := .skipped,
       reason := some "Cookie has expired" }, [])
  else
    let d1 := primaryDetails c
    match store d1 with
    | .ok _ => ({ name := c.name, domain := c.domain, status := .success }, [d1])
    | .error e =>
      if !c.secure then
        let d2 := retryDetails c
        match store d2 with
        | .ok _ =>
          ({ name := c.name, domain := c.domain, status := .success,
             reason := some "Upgraded to HTTPS" }, [d1, d2])
        | .error retryError =>
          ({ name := c.name, domain := c.domain, status := .failed,
             reason := some retryError }, [d1, d2])
      else
        ({ name := c.name, domain := c.domain, status := .failed,
           reason := some e }, [d1])

/-- Model of `restoreCookies`: process the records strictly in input order,
accumulating counts, per-record details, and the trace of store calls. -/
def restoreCookies (cookies : List Cookie) (store : SetDetails → Except String Unit)
    (now : Rat) : RestoreResult × List SetDetails :=
  match cookies with
  | [] => ({ success := 0, failed := 0, skipped := 0, details := [] }, [])
  | c :: rest =>
    let step := restoreStep now store c
    let r := restoreCookies rest store now
    ({ success := (if step.1.status == .success then 1 else 0) + r.1.success
       failed := (if step.1.status == .failed then 1 else 0) + r.1.failed
       skipped := (if step.1.status == .skipped then 1 else 0) + r.1.skipped
       details := step.1 :: r.1.details }, step.2 ++ r.2)

/-! ### Domain grouping (src/src/utils/cookies.ts, `groupCookiesByDomain`) -/

/-- Domain group for selective backup/restore preview (`DomainGroup`). -/
structure DomainGroup where
  domain : String
  cookies : List Cookie
  selected : Bool
deriving DecidableEq, Repr

/-- Domain normalization: remove one leading dot (`cookie.domain.startsWith('.')
? cookie.domain.slice(1) : cookie.domain`). -/
def normalizeDomain (d : String) : String :=
  if startsWithDot d then dropFirst d else d

/-- Insert a cookie into the insertion-ordered domain map (`Map.get`/`push`/
`Map.set`: appending to an existing key keeps its position). -/
def addToGroups (gs : List (String × List Cookie)) (d : String) (c : Cookie) :
    List (String × List Cookie) :=
  match gs with
  | [] => [(d, [c])]
  | (d0, cs) :: rest =>
    if d0 = d then (d0, cs ++ [c]) :: rest else (d0, cs) :: addToGroups rest d c

/-- The insertion-ordered `domainMap` after the grouping loop. -/
def buildGroups (cookies : List Cookie) : List (String × List Cookie) :=
  cookies.foldl (fun gs c => addToGroups gs (normalizeDomain c.domain) c) []

/-- Stable insertion (descending by cookie count): place `g` before the first
group with strictly fewer cookies, keeping earlier equal-count groups ahead.
Models the stable `Array.prototype.sort` with comparator
`b.cookies.length - a.cookies.length`. -/
def insertByCount (g : DomainGroup) : List DomainGroup → List DomainGroup
  | [] => [g]
  | h :: t =>
    if h.cookies.length > g.cookies.length then h :: insertByCount g t
    else g :: h :: t

/-- Hold on to insertion order while sorting: a stable insertion sort,
descending by member count. -/
def sortGroups (gs : List DomainGroup) : List DomainGroup :=
  gs.foldr insertByCount []

/-- Model of `groupCookiesByDomain`: group by normalized domain in first-seen
order, default every group to selected, sort by descending cookie count with
the stable platform sort. -/
def groupCookiesByDomain (cookies : List Cookie) : List DomainGroup :=
  sortGroups ((buildGroups cookies).map fun p => ⟨p.1, p.2, true⟩)

/-! ### Helper lemmas: ideal cipher, checksum, chunking, reassembly -/

@[simp] theorem aesGcmDecrypt_encrypt (key : DKey) (iv pt : Bytes) :
    aesGcmDecrypt key iv (aesGcmEncrypt key iv pt) = some pt := by
  simp [aesGcmDecrypt, aesGcmEncrypt]

@[simp] theorem verifyChecksum_self (t : Bytes) :
    verifyChecksum t (generateChecksum t) = true := by
  simp [verifyChecksum]

@[simp] theorem truthyStr_generateChecksum (t : Bytes) :
    truthyStr (some (generateChecksum t)) = true := by
  simp [truthyStr, generateChecksum_ne_empty t]

/-- Slicing a list into `n` blocks of `cs` and flattening gives the list back,
provided `n` blocks cover it. -/
theorem flatten_range_chunks (cs : Nat) :
    ∀ (n : Nat) (l : Bytes), l.length ≤ n * cs →
      ((List.range n).map fun i => (l.drop (i * cs)).take cs).flatten = l := by
  intro n
  induction n with
  | zero =>
    intro l h
    simp at h
    simp [h]
  | succ n ih =>
    intro l h
    rw [List.range_succ_eq_map]
    simp only [List.map_cons, List.map_map, List.flatten_cons, Nat.zero_mul,
      List.drop_zero]
    have hrw : ((fun i => (l.drop (i * cs)).take cs) ∘ Nat.succ) =
        fun i => ((l.drop cs).drop (i * cs)).take cs := by
      funext i
      simp only [Function.comp_apply, List.drop_drop]
      rw [Nat.succ_mul, Nat.add_comm]
    have hlen : (l.drop cs).length ≤ n * cs := by
      rw [List.length_drop]
      rw [Nat.succ_mul] at h
      exact Nat.sub_le_of_le_add h
    rw [hrw, ih (l.drop cs) hlen]
    exact List.take_append_drop cs l

theorem setAt_length (buf : Bytes) (offset : Nat) (chunk : Bytes)
    (h : offset + chunk.length ≤ buf.length) :
    (setAt buf offset chunk).length = buf.length := by
  simp [setAt, List.length_append, List.length_take, List.length_drop]
  omega

theorem decryptChunkList_map {α : Type} (key : DKey) (ivf : α → Bytes) (f : α → Bytes)
    (l : List α) :
    decryptChunkList key
      (l.map fun a => ChunkRec.mk (ivf a) (aesGcmEncrypt key (ivf a) (f a))) =
      some (l.map f) := by
  induction l with
  | nil => simp [decryptChunkList]
  | cons a t ih => simp [decryptChunkList, ih]

/-- Reassembly succeeds and reproduces the concatenation when the chunks fit
in the buffer. -/
theorem combineChunks_ok :
    ∀ (ds : List Bytes) (buf : Bytes) (offset : Nat),
      offset + ds.flatten.length ≤ buf.length →
      combineChunks buf offset ds =
        .ok (buf.take offset ++ ds.flatten ++ buf.drop (offset + ds.flatten.length)) := by
  intro ds
  induction ds with
  | nil =>
    intro buf offset h
    simp [combineChunks, List.take_append_drop]
  | cons c cs ih =>
    intro buf offset h
    simp only [List.flatten_cons, List.length_append] at h
    have hguard : ¬ (offset + c.length > buf.length) := by omega
    rw [combineChunks, if_neg hguard]
    have hsetlen : (setAt buf offset c).length = buf.length :=
      setAt_length buf offset c (by omega)
    rw [ih (setAt buf offset c) (offset + c.length) (by rw [hsetlen]; omega)]
    have htakelen : (buf.take offset).length = offset := by
      rw [List.length_take]; omega
    have hfront : (buf.take offset ++ c).length = offset + c.length := by
      rw [List.length_append, htakelen]
    have htake : (setAt buf offset c).take (offset + c.length) = buf.take offset ++ c := by
      rw [setAt]
      rw [List.take_append_eq_append_take, hfront, Nat.sub_self, List.take_zero,
        List.append_nil, List.take_of_length_le (le_of_eq hfront)]
    have hdrop : (setAt buf offset c).drop (offset + c.length + cs.flatten.length) =
        buf.drop (offset + c.length + cs.flatten.length) := by
      rw [setAt]
      rw [List.drop_append_eq_append_drop, hfront]
      have h1 : (buf.take offset ++ c).drop (offset + c.length + cs.flatten.length) = [] := by
        apply List.drop_eq_nil_of_le
        rw [hfront]
        omega
      rw [h1, List.nil_append, List.drop_drop]
      congr 1
      omega
    rw [htake, hdrop]
    simp only [List.flatten_cons, List.length_append, List.append_assoc, Nat.add_assoc]

theorem le_ceil_mul (L cs : Nat) (hcs : 0 < cs) : L ≤ (L + cs - 1) / cs * cs := by
  obtain ⟨q, hq⟩ : ∃ q, (L + cs - 1) / cs = q := ⟨_, rfl⟩
  obtain ⟨r, hr⟩ : ∃ r, (L + cs - 1) % cs = r := ⟨_, rfl⟩
  have hdm := Nat.div_add_mod (L + cs - 1) cs
  rw [hq, hr] at hdm
  have hlt : r < cs := by rw [← hr]; exact Nat.mod_lt _ hcs
  rw [hq, Nat.mul_comm]
  generalize hM : cs * q = M
  rw [hM] at hdm
  omega

theorem decryptData_encryptSinglePass (raw : Bytes) (p : String) (tape : RandomTape)
    (records : List Cookie) (hparse : parseCookies raw = some records) :
    decryptData (encryptSinglePass raw p tape) p = .ok records := by
  simp [encryptSinglePass, decryptData, dispatchPath, decryptWebCrypto,
    parseDecrypted, hparse]

theorem decryptData_encryptChunked (raw : Bytes) (p : String) (tape : RandomTape)
    (cs : Nat) (hcs : 0 < cs) (records : List Cookie)
    (hparse : parseCookies raw = some records) :
    decryptData (encryptChunked raw raw p cs tape) p = .ok records := by
  have hcover : raw.length ≤ (raw.length + cs - 1) / cs * cs := le_ceil_mul _ _ hcs
  have hflat := flatten_range_chunks cs ((raw.length + cs - 1) / cs) raw hcover
  have hchunks := decryptChunkList_map (deriveKey p tape.salt) tape.iv
    (fun i => (raw.drop (i * cs)).take cs) (List.range ((raw.length + cs - 1) / cs))
  have hcomb := combineChunks_ok
    ((List.range ((raw.length + cs - 1) / cs)).map fun i => (raw.drop (i * cs)).take cs)
    (List.replicate raw.length 0) 0 (by simp [hflat])
  rw [hflat] at hcomb
  simp only [List.length_replicate, List.take_zero, Nat.zero_add,
    List.drop_replicate, Nat.sub_self, List.replicate_zero, List.nil_append,
    List.append_nil] at hcomb
  simp [encryptChunked, decryptData, dispatchPath, decryptChunked, hchunks,
    hcomb, parseDecrypted, hparse]

/-- C1: round-trip — for every record list and password, decrypting the
artifact produced by `encryptData` with the same password returns the records,
on both the single-pass V3 path (plaintext at most the 1 MiB threshold) and
the chunked V4 path (plaintext above it). -/
theorem c1_roundtrip (records : List Cookie) (password : String) (tape : RandomTape) :
    decryptData (encryptData records password tape) password = .ok records := by
  rw [encryptData]
  by_cases h : (serializeCookies records).length ≤ chunkSize
  · rw [if_pos h]
    exact decryptData_encryptSinglePass _ _ _ _ (parseCookies_serializeCookies records)
  · rw [if_neg h]
    exact decryptData_encryptChunked _ _ _ _ (by rw [chunkSize]; omega) _
      (parseCookies_serializeCookies records)

/-! ### Tampering helpers and wrong-key lemmas -/

/-- Replace the embedded checksum of an artifact (models an attacker editing
the JSON field). -/
def setChecksum (e : Envelope) (c : String) : Envelope := { e with checksum := some c }

/-- Remove the embedded checksum of an artifact (models an attacker deleting
the JSON field). -/
def stripChecksum (e : Envelope) : Envelope := { e with checksum := none }

theorem deriveKey_ne (p q : String) (s : Bytes) (h : p ≠ q) :
    deriveKey p s ≠ deriveKey q s := by
  intro hk
  exact h (congrArg DKey.password hk)

theorem aesGcmDecrypt_wrong_key (key : DKey) (iv : Bytes) (ct : Ctxt)
    (h : ct.key ≠ key) : aesGcmDecrypt key iv ct = none := by
  rw [aesGcmDecrypt, if_neg]
  intro hc
  exact h hc.1

theorem decryptData_singlePass_wrong (raw : Bytes) (p q : String) (tape : RandomTape)
    (h : q ≠ p) :
    decryptData (encryptSinglePass raw p tape) q = .error .auth := by
  have hk : (aesGcmEncrypt (deriveKey p tape.salt) (tape.iv 0) raw).key ≠
      deriveKey q tape.salt := deriveKey_ne p q tape.salt (Ne.symm h)
  simp [encryptSinglePass, decryptData, dispatchPath, decryptWebCrypto,
    aesGcmDecrypt_wrong_key _ _ _ hk]

theorem decryptData_chunked_wrong (raw : Bytes) (p q : String) (tape : RandomTape)
    (cs : Nat) (hcs : 0 < cs) (hL : cs < raw.length) (h : q ≠ p) :
    decryptData (encryptChunked raw raw p cs tape) q = .error .auth := by
  have hk : ∀ iv pt, (aesGcmEncrypt (deriveKey p tape.salt) iv pt).key ≠
      deriveKey q tape.salt := fun _ _ => deriveKey_ne p q tape.salt (Ne.symm h)
  obtain ⟨m, hm⟩ : ∃ m, (raw.length + cs - 1) / cs = m + 1 := by
    refine ⟨(raw.length + cs - 1) / cs - 1, ?_⟩
    have h1 : 1 ≤ (raw.length + cs - 1) / cs := by
      rw [Nat.le_div_iff_mul_le hcs]
      omega
    omega
  simp only [encryptChunked, hm, List.range_succ_eq_map, List.map_cons]
  simp [decryptData, dispatchPath, decryptChunked, decryptChunkList,
    aesGcmDecrypt_wrong_key _ _ _ (hk (tape.iv 0) _)]

theorem decryptData_singlePass_tampered (raw : Bytes) (p : String) (tape : RandomTape)
    (c : String) (ht : truthyStr (some c) = true) (hc : c ≠ generateChecksum raw) :
    decryptData (setChecksum (encryptSinglePass raw p tape) c) p = .error .integrity := by
  have hv : verifyChecksum raw c = false := by
    rw [verifyChecksum, beq_eq_false_iff_ne]
    exact Ne.symm hc
  simp [encryptSinglePass, setChecksum, decryptData, dispatchPath,
    decryptWebCrypto, ht, hv]

theorem decryptData_chunked_tampered (raw : Bytes) (p : String) (tape : RandomTape)
    (cs : Nat) (hcs : 0 < cs) (c : String) (ht : truthyStr (some c) = true)
    (hc : c ≠ generateChecksum raw) :
    decryptData (setChecksum (encryptChunked raw raw p cs tape) c) p = .error .integrity := by
  have hcover : raw.length ≤ (raw.length + cs - 1) / cs * cs := le_ceil_mul _ _ hcs
  have hflat := flatten_range_chunks cs ((raw.length + cs - 1) / cs) raw hcover
  have hchunks := decryptChunkList_map (deriveKey p tape.salt) tape.iv
    (fun i => (raw.drop (i * cs)).take cs) (List.range ((raw.length + cs - 1) / cs))
  have hcomb := combineChunks_ok
    ((List.range ((raw.length + cs - 1) / cs)).map fun i => (raw.drop (i * cs)).take cs)
    (List.replicate raw.length 0) 0 (by simp [hflat])
  rw [hflat] at hcomb
  simp only [List.length_replicate, List.take_zero, Nat.zero_add,
    List.drop_replicate, Nat.sub_self, List.replicate_zero, List.nil_append,
    List.append_nil] at hcomb
  have hv : verifyChecksum raw c = false := by
    rw [verifyChecksum, beq_eq_false_iff_ne]
    exact Ne.symm hc
  simp [encryptChunked, setChecksum, decryptData, dispatchPath, decryptChunked,
    hchunks, hcomb, ht, hv]

/-- C2: a V2/V3/V4 artifact decrypted with a wrong password fails with the
uniform `AuthenticationError` message and never returns data, while an
artifact that decrypts but whose (truthy) embedded checksum does not match the
plaintext fails with the distinct `IntegrityError`. -/
theorem c2_wrong_password_and_checksum (records : List Cookie)
    (password wrong : String) (tape : RandomTape) (c : String)
    (hw : wrong ≠ password)
    (ht : truthyStr (some c) = true)
    (hc : c ≠ generateChecksum (serializeCookies records)) :
    decryptData (encryptData records password tape) wrong = .error .auth ∧
    decryptData (encryptDataV2 records password tape) wrong = .error .auth ∧
    decryptData (setChecksum (encryptData records password tape) c) password =
      .error .integrity ∧
    (DecErr.auth).message = "Incorrect password or corrupted file" ∧
    (DecErr.integrity).message = "Backup file corrupted (checksum mismatch)" ∧
    DecErr.integrity ≠ DecErr.auth := by
  refine ⟨?_, ?_, ?_, rfl, rfl, by decide⟩
  · rw [encryptData]
    by_cases h : (serializeCookies records).length ≤ chunkSize
    · rw [if_pos h]
      exact decryptData_singlePass_wrong _ _ _ _ hw
    · rw [if_neg h]
      exact decryptData_chunked_wrong _ _ _ _ _ (by rw [chunkSize]; omega) (by omega) hw
  · have hk : (aesGcmEncrypt (deriveKey password tape.salt) (tape.iv 0)
        (serializeCookies records)).key ≠ deriveKey wrong tape.salt :=
      deriveKey_ne password wrong tape.salt (Ne.symm hw)
    simp [encryptDataV2, decryptData, dispatchPath, decryptWebCrypto,
      aesGcmDecrypt_wrong_key _ _ _ hk]
  · rw [encryptData]
    by_cases h : (serializeCookies records).length ≤ chunkSize
    · rw [if_pos h]
      exact decryptData_singlePass_tampered _ _ _ _ ht hc
    · rw [if_neg h]
      exact decryptData_chunked_tampered _ _ _ _ (by rw [chunkSize]; omega) _ ht hc

/-- Witness for C2 at a concrete artifact, password and tampered checksum. -/
theorem c2_wrong_password_and_checksum_witness :
    decryptData (encryptData [] "pw" ⟨[7], fun _ => [9]⟩) "x" = .error .auth ∧
    decryptData (encryptDataV2 [] "pw" ⟨[7], fun _ => [9]⟩) "x" = .error .auth ∧
    decryptData (setChecksum (encryptData [] "pw" ⟨[7], fun _ => [9]⟩) "bad") "pw" =
      .error .integrity ∧
    (DecErr.auth).message = "Incorrect password or corrupted file" ∧
    (DecErr.integrity).message = "Backup file corrupted (checksum mismatch)" ∧
    DecErr.integrity ≠ DecErr.auth :=
  c2_wrong_password_and_checksum [] "pw" "x" ⟨[7], fun _ => [9]⟩ "bad"
    (by decide) (by decide) (by decide)

theorem parseDecrypted_ne_integrity (t : Bytes) :
    parseDecrypted t ≠ .error .integrity := by
  rw [parseDecrypted]
  split <;> simp

theorem decryptWebCrypto_no_integrity (e : Envelope) (p : String)
    (h : truthyStr e.checksum = false) : decryptWebCrypto e p ≠ .error .integrity := by
  rw [decryptWebCrypto]
  split
  · simp
  · rw [if_neg (by simp [h])]
    exact parseDecrypted_ne_integrity _

theorem decryptChunked_no_integrity (e : Envelope) (p : String)
    (h : truthyStr e.checksum = false) : decryptChunked e p ≠ .error .integrity := by
  rw [decryptChunked]
  simp only [h, Bool.false_eq_true, reduceIte]
  split
  · simp
  · split
    · simp
    · exact parseDecrypted_ne_integrity _

theorem decryptLegacy_no_integrity (e : Envelope) (p : String) :
    decryptLegacy e p ≠ .error .integrity := by
  rw [decryptLegacy]
  split
  · split <;> simp
  · split <;> simp

theorem decryptData_chunked_stripped (raw : Bytes) (p : String) (tape : RandomTape)
    (cs : Nat) (hcs : 0 < cs) (records : List Cookie)
    (hparse : parseCookies raw = some records) :
    decryptData (stripChecksum (encryptChunked raw raw p cs tape)) p = .ok records := by
  have hcover : raw.length ≤ (raw.length + cs - 1) / cs * cs := le_ceil_mul _ _ hcs
  have hflat := flatten_range_chunks cs ((raw.length + cs - 1) / cs) raw hcover
  have hchunks := decryptChunkList_map (deriveKey p tape.salt) tape.iv
    (fun i => (raw.drop (i * cs)).take cs) (List.range ((raw.length + cs - 1) / cs))
  have hcomb := combineChunks_ok
    ((List.range ((raw.length + cs - 1) / cs)).map fun i => (raw.drop (i * cs)).take cs)
    (List.replicate raw.length 0) 0 (by simp [hflat])
  rw [hflat] at hcomb
  simp only [List.length_replicate, List.take_zero, Nat.zero_add,
    List.drop_replicate, Nat.sub_self, List.replicate_zero, List.nil_append,
    List.append_nil] at hcomb
  simp [encryptChunked, stripChecksum, decryptData, dispatchPath, decryptChunked,
    hchunks, hcomb, truthyStr, parseDecrypted, hparse]

theorem decryptData_stripped (records : List Cookie) (password : String)
    (tape : RandomTape) :
    decryptData (stripChecksum (encryptData records password tape)) password =
      .ok records := by
  rw [encryptData]
  by_cases h : (serializeCookies records).length ≤ chunkSize
  · rw [if_pos h]
    simp [encryptSinglePass, stripChecksum, decryptData, dispatchPath,
      decryptWebCrypto, truthyStr, parseDecrypted]
  · rw [if_neg h]
    exact decryptData_chunked_stripped _ _ _ _ (by rw [chunkSize]; omega) _
      (parseCookies_serializeCookies records)

/-- C9: checksum verification is conditional on the field being present and
truthy — an envelope whose checksum is absent or empty can never raise the
`IntegrityError`, and stripping the checksum from an honestly produced
artifact still decrypts to the payload with the correct password. -/
theorem c9_checksum_optional :
    (∀ (e : Envelope) (p : String), truthyStr e.checksum = false →
      decryptData e p ≠ .error .integrity) ∧
    (∀ (records : List Cookie) (password : String) (tape : RandomTape),
      decryptData (stripChecksum (encryptData records password tape)) password =
        .ok records) := by
  constructor
  · intro e p h
    rw [decryptData]
    cases dispatchPath e with
    | v4 => exact decryptChunked_no_integrity e p h
    | v23 => exact decryptWebCrypto_no_integrity e p h
    | legacy => exact decryptLegacy_no_integrity e p
    | unknown => simp
  · exact decryptData_stripped

/-- Witness for C9 at a concrete checksum-stripped artifact. -/
theorem c9_checksum_optional_witness :
    decryptData (stripChecksum (encryptData [] "pw" ⟨[7], fun _ => [9]⟩)) "pw" ≠
      .error .integrity ∧
    decryptData (stripChecksum (encryptData [] "pw" ⟨[7], fun _ => [9]⟩)) "pw" =
      .ok [] :=
  ⟨c9_checksum_optional.1 (stripChecksum (encryptData [] "pw" ⟨[7], fun _ => [9]⟩))
      "pw" (by decide),
    c9_checksum_optional.2 [] "pw" ⟨[7], fun _ => [9]⟩⟩

/-! ### C5: version selection boundary -/

/-- C5: a plaintext of exactly the 1 MiB chunk threshold encodes as a
single-pass V3 artifact (no chunk list); one byte more encodes as a chunked V4
artifact with at least two chunks. -/
theorem c5_version_boundary (records : List Cookie) (password : String)
    (tape : RandomTape) :
    ((serializeCookies records).length = chunkSize →
      (encryptData records password tape).version = some "v3" ∧
      (encryptData records password tape).chunks = none) ∧
    ((serializeCookies records).length = chunkSize + 1 →
      (encryptData records password tape).version = some "v4" ∧
      2 ≤ ((encryptData records password tape).chunks.getD []).length) := by
  constructor
  · intro h
    rw [encryptData, if_pos (le_of_eq h)]
    exact ⟨rfl, rfl⟩
  · intro h
    rw [encryptData, if_neg (by omega)]
    refine ⟨rfl, ?_⟩
    show 2 ≤ ((some _).getD []).length
    rw [Option.getD_some, List.length_map, List.length_range, h, chunkSize]

/-- A string of `n` identical characters, used to hit the size boundary. -/
def bigValue (n : Nat) : String := String.mk (List.replicate n 'a')

/-- A cookie whose serialization length is `14 + n` bytes (for the `n` used in
the witness). -/
def bigCookie (n : Nat) : Cookie :=
  { name := "", value := bigValue n, domain := "", path := "", secure := false,
    httpOnly := false, storeId := "" }

theorem bigValue_data (n : Nat) : (bigValue n).data = List.replicate n 'a' := rfl

theorem bigValue_length (n : Nat) : (bigValue n).length = n := by
  rw [str_length_data, bigValue_data, List.length_replicate]

theorem serializeCookies_bigCookie_length (n : Nat) :
    (serializeCookies [bigCookie n]).length = 11 + (encNat n).length + n := by
  have h0 : (encNat 0).length = 1 := by decide
  have h1 : (encNat 1).length = 1 := by decide
  simp only [serializeCookies, bigCookie, encCookie, encString, encBool, encOption,
    List.map_cons, List.map_nil, List.flatten_cons, List.flatten_nil,
    List.length_append, List.length_map, bigValue_data, bigValue_length,
    List.length_replicate, List.append_nil, String.length_empty,
    List.length_singleton, List.length_cons, List.length_nil, h0, h1]
  omega

/-- Witness for C5: concrete record lists whose serializations are exactly the
threshold and one byte above it. -/
theorem c5_version_boundary_witness :
    ((encryptData [bigCookie 1048562] "pw" ⟨[7], fun _ => [9]⟩).version = some "v3" ∧
      (encryptData [bigCookie 1048562] "pw" ⟨[7], fun _ => [9]⟩).chunks = none) ∧
    ((encryptData [bigCookie 1048563] "pw" ⟨[7], fun _ => [9]⟩).version = some "v4" ∧
      2 ≤ ((encryptData [bigCookie 1048563] "pw" ⟨[7], fun _ => [9]⟩).chunks.getD []).length) :=
  ⟨(c5_version_boundary [bigCookie 1048562] "pw" ⟨[7], fun _ => [9]⟩).1
      (by rw [serializeCookies_bigCookie_length,
            show (encNat 1048562).length = 3 by decide, chunkSize]),
    (c5_version_boundary [bigCookie 1048563] "pw" ⟨[7], fun _ => [9]⟩).2
      (by rw [serializeCookies_bigCookie_length,
            show (encNat 1048563).length = 3 by decide, chunkSize])⟩

/-! ### C3: chunk reassembly and the missing length check -/

theorem combineChunks_overflow :
    ∀ (ds : List Bytes) (buf : Bytes) (offset : Nat),
      offset ≤ buf.length → offset + ds.flatten.length > buf.length →
      combineChunks buf offset ds = .error () := by
  intro ds
  induction ds with
  | nil =>
    intro buf offset h1 h2
    simp at h2
    omega
  | cons c cs ih =>
    intro buf offset h1 h2
    rw [combineChunks]
    by_cases hg : offset + c.length > buf.length
    · rw [if_pos hg]
    · rw [if_neg hg]
      push_neg at hg
      apply ih
      · rw [setAt_length _ _ _ hg]
        omega
      · rw [setAt_length _ _ _ hg]
        simp only [List.flatten_cons, List.length_append] at h2
        omega

/-- A V4 envelope whose chunk list was tampered with by duplicating the single
chunk: both copies authenticate under the derived key, the checksum field is
still present, but the decrypted lengths sum to 4 while `totalSize` is 2. -/
def dupChunkEnvelope : Envelope :=
  { version := some "v4"
    salt := some [7]
    chunks := some [⟨[9], aesGcmEncrypt (deriveKey "pw" [7]) [9] [1, 2]⟩,
                    ⟨[9], aesGcmEncrypt (deriveKey "pw" [7]) [9] [1, 2]⟩]
    chunkSize := some 2
    totalSize := some 2
    checksum := some (generateChecksum [1, 2]) }

/-- Counterexample to C3 as stated: on a duplicated chunk list every chunk
authenticates, the concatenated decrypted lengths (4) differ from `totalSize`
(2), yet `decryptData` raises the `AuthenticationError` message, not
`IntegrityError` — there is no explicit length check, and the overflowing
buffer write surfaces as the uniform wrong-password error. -/
theorem c3_counterexample :
    decryptChunkList (deriveKey "pw" [7]) (dupChunkEnvelope.chunks.getD []) =
      some [[1, 2], [1, 2]] ∧
    truthyStr dupChunkEnvelope.checksum = true ∧
    [[1, 2], [1, 2]].flatten.length ≠ dupChunkEnvelope.totalSize.getD 0 ∧
    decryptData dupChunkEnvelope "pw" = .error .auth ∧
    decryptData dupChunkEnvelope "pw" ≠ .error .integrity := by
  decide

/-- C3 (amended): chunks are reassembled in stored order with no explicit
length check.  When the decrypted lengths overrun `totalSize` the write fails
and surfaces as the uniform `AuthenticationError`; when they fall short, the
buffer keeps its zero padding and — provided the checksum field is truthy and
does not match the padded plaintext — the failure surfaces as
`IntegrityError`. -/
theorem c3_reassembly_amended (e : Envelope) (p : String) (ds : List Bytes)
    (hv : e.version = some "v4") (hs : e.salt.isSome = true)
    (hc : e.chunks.isSome = true)
    (hds : decryptChunkList (deriveKey p (e.salt.getD [])) (e.chunks.getD []) =
      some ds) :
    (ds.flatten.length > e.totalSize.getD 0 → decryptData e p = .error .auth) ∧
    (ds.flatten.length < e.totalSize.getD 0 → truthyStr e.checksum = true →
      verifyChecksum
        (ds.flatten ++ List.replicate (e.totalSize.getD 0 - ds.flatten.length) 0)
        (e.checksum.getD "") = false →
      decryptData e p = .error .integrity) := by
  have hdp : dispatchPath e = .v4 := by
    simp [dispatchPath, hv, hs, hc]
  constructor
  · intro hover
    have hcomb := combineChunks_overflow ds (List.replicate (e.totalSize.getD 0) 0) 0
      (by omega) (by rw [List.length_replicate, Nat.zero_add]; exact hover)
    rw [decryptData, hdp]
    simp only [decryptChunked, hds, hcomb]
  · intro hunder ht hbad
    have hcomb := combineChunks_ok ds (List.replicate (e.totalSize.getD 0) 0) 0
      (by rw [List.length_replicate, Nat.zero_add]; omega)
    simp only [List.take_zero, Nat.zero_add, List.drop_replicate, List.nil_append,
      List.length_replicate] at hcomb
    rw [decryptData, hdp]
    simp only [decryptChunked, hds, hcomb, ht, hbad, Bool.false_eq_true, if_true,
      if_false, reduceIte]

/-- A V4 envelope with a truncated chunk list: the surviving chunk
authenticates, but only 1 of the 2 plaintext bytes remains. -/
def truncChunkEnvelope : Envelope :=
  { version := some "v4"
    salt := some [7]
    chunks := some [⟨[9], aesGcmEncrypt (deriveKey "pw" [7]) [9] [1]⟩]
    chunkSize := some 2
    totalSize := some 2
    checksum := some (generateChecksum [1, 2]) }

/-- Witness for the amended C3 at the concrete duplicated and truncated
envelopes. -/
theorem c3_reassembly_amended_witness :
    decryptData dupChunkEnvelope "pw" = .error .auth ∧
    decryptData truncChunkEnvelope "pw" = .error .integrity :=
  ⟨(c3_reassembly_amended dupChunkEnvelope "pw" [[1, 2], [1, 2]] rfl (by decide)
      (by decide) (by decide)).1 (by decide),
    (c3_reassembly_amended truncChunkEnvelope "pw" [[1]] rfl (by decide)
      (by decide) (by decide)).2 (by decide) (by decide) (by decide)⟩

/-! ### C4: structural dispatch of decryptData -/

/-- The shape actually required for the V4 path: version tag `v4` plus truthy
salt plus a chunks array. -/
abbrev isV4Shape (e : Envelope) : Prop :=
  e.version = some "v4" ∧ e.salt.isSome = true ∧ e.chunks.isSome = true

/-- The shape required for the V2/V3 path. -/
abbrev isV23Shape (e : Envelope) : Prop :=
  (e.version = some "v2" ∨ e.version = some "v3") ∧ e.salt.isSome = true ∧
    e.iv.isSome = true ∧ e.data.isSome = true

/-- The legacy SJCL field sniff — it does not require the version tag to be
absent. -/
abbrev isLegacyShape (e : Envelope) : Prop :=
  e.iv.isSome = true ∧ truthyNat e.v = true ∧ truthyNat e.iter = true ∧
    truthyStr e.mode = true ∧ e.ct.isSome = true

theorem v4_cond_iff (e : Envelope) :
    (e.version == some "v4" && e.salt.isSome && e.chunks.isSome) = true ↔
      isV4Shape e := by
  simp [Bool.and_eq_true, and_assoc]

theorem v23_cond_iff (e : Envelope) :
    ((e.version == some "v2" || e.version == some "v3") && e.salt.isSome &&
        e.iv.isSome && e.data.isSome) = true ↔ isV23Shape e := by
  simp [Bool.and_eq_true, Bool.or_eq_true, and_assoc]

theorem legacy_cond_iff (e : Envelope) :
    (e.iv.isSome && truthyNat e.v && truthyNat e.iter && truthyStr e.mode &&
        e.ct.isSome) = true ↔ isLegacyShape e := by
  simp [Bool.and_eq_true, and_assoc]

theorem parseDecrypted_ne_unknown (t : Bytes) :
    parseDecrypted t ≠ .error .unknownFormat := by
  rw [parseDecrypted]
  split <;> simp

theorem decryptWebCrypto_ne_unknown (e : Envelope) (p : String) :
    decryptWebCrypto e p ≠ .error .unknownFormat := by
  rw [decryptWebCrypto]
  split
  · simp
  · split
    · split
      · exact parseDecrypted_ne_unknown _
      · simp
    · exact parseDecrypted_ne_unknown _

theorem decryptChunked_ne_unknown (e : Envelope) (p : String) :
    decryptChunked e p ≠ .error .unknownFormat := by
  simp only [decryptChunked]
  repeat' split
  all_goals first
    | exact parseDecrypted_ne_unknown _
    | simp

theorem decryptLegacy_ne_unknown (e : Envelope) (p : String) :
    decryptLegacy e p ≠ .error .unknownFormat := by
  rw [decryptLegacy]
  split
  · split <;> simp
  · split <;> simp

/-- An envelope carrying only a chunks array. -/
def chunksOnlyEnvelope : Envelope := { chunks := some [] }

/-- An envelope with the legacy SJCL field set and also a version tag, but
neither the V4 nor the V2/V3 field sets. -/
def taggedLegacyEnvelope : Envelope :=
  { version := some "v2", iv := some [1], v := some 1, iter := some 100000,
    mode := some "ccm", ct := some ⟨"pw", [0]⟩ }

/-- Counterexample to C4 as stated: (a) presence of a chunks array does not
imply the V4 path — without the `v4` version tag and a salt the envelope is
rejected as unknown; and (b) an envelope matching none of the claim's three
shapes (legacy fields plus a version tag) does not raise `UnknownFormatError`
— the legacy sniff ignores the version tag and the file decrypts. -/
theorem c4_counterexample :
    (chunksOnlyEnvelope.chunks.isSome = true ∧
      dispatchPath chunksOnlyEnvelope ≠ .v4 ∧
      decryptData chunksOnlyEnvelope "pw" = .error .unknownFormat) ∧
    (taggedLegacyEnvelope.version = some "v2" ∧
      taggedLegacyEnvelope.chunks.isSome = false ∧
      taggedLegacyEnvelope.salt.isSome = false ∧
      dispatchPath taggedLegacyEnvelope = .legacy ∧
      decryptData taggedLegacyEnvelope "pw" = .ok []) := by
  decide

/-- C4 (amended): the decoder dispatches on structural fields in this exact
order — version tag `v4` with salt and a chunks array selects V4; otherwise
version tag 2 or 3 with salt, iv and data selects V2/V3; otherwise the legacy
SJCL field set (truthy iv, v, iter, mode, ct), irrespective of any version
tag, selects the legacy path; and exactly the envelopes matching none of these
raise `UnknownFormatError`. -/
theorem c4_dispatch_amended (e : Envelope) (p : String) :
    (dispatchPath e = .v4 ↔ isV4Shape e) ∧
    (dispatchPath e = .v23 ↔ (¬ isV4Shape e ∧ isV23Shape e)) ∧
    (dispatchPath e = .legacy ↔
      (¬ isV4Shape e ∧ ¬ isV23Shape e ∧ isLegacyShape e)) ∧
    (dispatchPath e = .unknown ↔
      (¬ isV4Shape e ∧ ¬ isV23Shape e ∧ ¬ isLegacyShape e)) ∧
    (decryptData e p = .error .unknownFormat ↔ dispatchPath e = .unknown) := by
  by_cases h1 : isV4Shape e
  · have hdp : dispatchPath e = .v4 := by
      rw [dispatchPath, if_pos ((v4_cond_iff e).mpr h1)]
    have hdd : decryptData e p = decryptChunked e p := by
      simp only [decryptData, hdp]
    exact ⟨iff_of_true hdp h1,
      iff_of_false (by simp [hdp]) fun h => h.1 h1,
      iff_of_false (by simp [hdp]) fun h => h.1 h1,
      iff_of_false (by simp [hdp]) fun h => h.1 h1,
      iff_of_false (by rw [hdd]; exact decryptChunked_ne_unknown e p) (by simp [hdp])⟩
  · by_cases h2 : isV23Shape e
    · have hdp : dispatchPath e = .v23 := by
        rw [dispatchPath, if_neg (fun hb => h1 ((v4_cond_iff e).mp hb)),
          if_pos ((v23_cond_iff e).mpr h2)]
      have hdd : decryptData e p = decryptWebCrypto e p := by
        simp only [decryptData, hdp]
      exact ⟨iff_of_false (by simp [hdp]) h1,
        iff_of_true hdp ⟨h1, h2⟩,
        iff_of_false (by simp [hdp]) fun h => h.2.1 h2,
        iff_of_false (by simp [hdp]) fun h => h.2.1 h2,
        iff_of_false (by rw [hdd]; exact decryptWebCrypto_ne_unknown e p)
          (by simp [hdp])⟩
    · by_cases h3 : isLegacyShape e
      · have hdp : dispatchPath e = .legacy := by
          rw [dispatchPath, if_neg (fun hb => h1 ((v4_cond_iff e).mp hb)),
            if_neg (fun hb => h2 ((v23_cond_iff e).mp hb)),
            if_pos ((legacy_cond_iff e).mpr h3)]
        have hdd : decryptData e p = decryptLegacy e p := by
          simp only [decryptData, hdp]
        exact ⟨iff_of_false (by simp [hdp]) h1,
          iff_of_false (by simp [hdp]) fun h => h2 h.2,
          iff_of_true hdp ⟨h1, h2, h3⟩,
          iff_of_false (by simp [hdp]) fun h => h.2.2 h3,
          iff_of_false (by rw [hdd]; exact decryptLegacy_ne_unknown e p)
            (by simp [hdp])⟩
      · have hdp : dispatchPath e = .unknown := by
          rw [dispatchPath, if_neg (fun hb => h1 ((v4_cond_iff e).mp hb)),
            if_neg (fun hb => h2 ((v23_cond_iff e).mp hb)),
            if_neg (fun hb => h3 ((legacy_cond_iff e).mp hb))]
        exact ⟨iff_of_false (by simp [hdp]) h1,
          iff_of_false (by simp [hdp]) fun h => h2 h.2,
          iff_of_false (by simp [hdp]) fun h => h3 h.2.2,
          iff_of_true hdp ⟨h1, h2, h3⟩,
          iff_of_true (by simp only [decryptData, hdp]) hdp⟩

/-- Witness for the amended C4 at a concrete envelope. -/
theorem c4_dispatch_amended_witness :
    (dispatchPath chunksOnlyEnvelope = .v4 ↔ isV4Shape chunksOnlyEnvelope) ∧
    (dispatchPath chunksOnlyEnvelope = .v23 ↔
      (¬ isV4Shape chunksOnlyEnvelope ∧ isV23Shape chunksOnlyEnvelope)) ∧
    (dispatchPath chunksOnlyEnvelope = .legacy ↔
      (¬ isV4Shape chunksOnlyEnvelope ∧ ¬ isV23Shape chunksOnlyEnvelope ∧
        isLegacyShape chunksOnlyEnvelope)) ∧
    (dispatchPath chunksOnlyEnvelope = .unknown ↔
      (¬ isV4Shape chunksOnlyEnvelope ∧ ¬ isV23Shape chunksOnlyEnvelope ∧
        ¬ isLegacyShape chunksOnlyEnvelope)) ∧
    (decryptData chunksOnlyEnvelope "pw" = .error .unknownFormat ↔
      dispatchPath chunksOnlyEnvelope = .unknown) :=
  c4_dispatch_amended chunksOnlyEnvelope "pw"

/-! ### Restore reconciler lemmas and claims C6, C7, C10 -/

theorem restoreCookies_cons (c : Cookie) (rest : List Cookie)
    (store : SetDetails → Except String Unit) (now : Rat) :
    restoreCookies (c :: rest) store now =
      ({ success := (if (restoreStep now store c).1.status == .success then 1 else 0) +
            (restoreCookies rest store now).1.success
         failed := (if (restoreStep now store c).1.status == .failed then 1 else 0) +
            (restoreCookies rest store now).1.failed
         skipped := (if (restoreStep now store c).1.status == .skipped then 1 else 0) +
            (restoreCookies rest store now).1.skipped
         details := (restoreStep now store c).1 ::
            (restoreCookies rest store now).1.details },
       (restoreStep now store c).2 ++ (restoreCookies rest store now).2) := rfl

theorem restoreCookies_append (l1 l2 : List Cookie)
    (store : SetDetails → Except String Unit) (now : Rat) :
    restoreCookies (l1 ++ l2) store now =
      ({ success := (restoreCookies l1 store now).1.success +
            (restoreCookies l2 store now).1.success
         failed := (restoreCookies l1 store now).1.failed +
            (restoreCookies l2 store now).1.failed
         skipped := (restoreCookies l1 store now).1.skipped +
            (restoreCookies l2 store now).1.skipped
         details := (restoreCookies l1 store now).1.details ++
            (restoreCookies l2 store now).1.details },
       (restoreCookies l1 store now).2 ++ (restoreCookies l2 store now).2) := by
  induction l1 with
  | nil => simp [restoreCookies]
  | cons c t ih =>
    rw [List.cons_append, restoreCookies_cons, restoreCookies_cons, ih]
    simp [Nat.add_assoc]

/-- JS truthiness of the expiry guard, as a proposition. -/
theorem expiredSkip_iff (now : Rat) (c : Cookie) :
    expiredSkip now c = true ↔
      ∃ e, c.expirationDate = some e ∧ e ≠ 0 ∧ e < now := by
  rw [expiredSkip]
  cases hc : c.expirationDate with
  | none => simp
  | some e => simp [Bool.and_eq_true, decide_eq_true_iff]

/-- When the expiry guard does not fire, the outcome is never `skipped` and at
least one store call is made. -/
theorem restoreStep_not_skip (now : Rat) (store : SetDetails → Except String Unit)
    (c : Cookie) (h : expiredSkip now c = false) :
    (restoreStep now store c).1.status ≠ .skipped ∧
      (restoreStep now store c).2 ≠ [] := by
  simp only [restoreStep, h, Bool.false_eq_true, if_false]
  cases store (primaryDetails c) with
  | ok u => simp
  | error e =>
    by_cases hsec : c.secure
    · simp [hsec]
    · simp only [hsec]
      cases store (retryDetails c) with
      | ok u => simp
      | error e2 => simp

/-- The cookie of the C6 counterexample: a past expiration of exactly epoch 0
with no session flag. -/
def zeroExpCookie : Cookie :=
  { name := "c", value := "v", domain := "example.com", path := "/",
    secure := true, httpOnly := false, expirationDate := some 0, storeId := "0" }

/-- A cookie store that accepts every request. -/
def okStore : SetDetails → Except String Unit := fun _ => .ok ()

/-- A cookie store that rejects every request. -/
def failStore : SetDetails → Except String Unit := fun _ => .error "Failed"

/-- A cookie store that accepts exactly the secure requests (an
HSTS-preloaded domain). -/
def secureOnlyStore : SetDetails → Except String Unit :=
  fun d => if d.secure then .ok () else .error "Failed"

/-- Counterexample to C6 as stated: `expirationDate = 0` is strictly in the
past at time 1 and the record has no session flag, yet the record is not
skipped — JS treats the value 0 as falsy — and the store is called. -/
theorem c6_counterexample :
    zeroExpCookie.expirationDate = some 0 ∧ ((0 : Rat) < 1) ∧
    zeroExpCookie.session = none ∧
    (restoreCookies [zeroExpCookie] okStore 1).1.skipped = 0 ∧
    (restoreCookies [zeroExpCookie] okStore 1).1.details =
      [{ name := "c", domain := "example.com", status := .success }] ∧
    (restoreCookies [zeroExpCookie] okStore 1).2 = [primaryDetails zeroExpCookie] := by
  exact ⟨rfl, by decide, rfl, by decide, rfl, rfl⟩

/-- C6 (amended): a record with a nonzero past expiration and no session flag
is marked `skipped` with reason "Cookie has expired", counts as skipped, and
contributes no store call. -/
theorem c6_expiry_skip_amended (pre post : List Cookie) (c : Cookie)
    (store : SetDetails → Except String Unit) (now e : Rat)
    (he : c.expirationDate = some e) (hnz : e ≠ 0) (hlt : e < now)
    (_hsess : c.session = none) :
    (restoreCookies (pre ++ c :: post) store now).1.details =
      (restoreCookies pre store now).1.details ++
        { name := c.name, domain := c.domain, status := Status.skipped,
          reason := some "Cookie has expired" } ::
          (restoreCookies post store now).1.details ∧
    (restoreCookies (pre ++ c :: post) store now).2 =
      (restoreCookies pre store now).2 ++ (restoreCookies post store now).2 ∧
    (restoreCookies (pre ++ c :: post) store now).1.skipped =
      (restoreCookies pre store now).1.skipped + 1 +
        (restoreCookies post store now).1.skipped := by
  have hskip : expiredSkip now c = true := by
    rw [expiredSkip, he]
    simp [hnz, hlt]
  have hstep : restoreStep now store c =
      ({ name := c.name, domain := c.domain, status := .skipped,
         reason := some "Cookie has expired" }, []) := by
    rw [restoreStep, if_pos hskip]
  rw [restoreCookies_append pre (c :: post) store now, restoreCookies_cons]
  refine ⟨by simp [hstep], by simp [hstep], by simp [hstep]; omega⟩

/-- A nonzero-past-expiration cookie used in the C6 witness. -/
def pastExpCookie : Cookie :=
  { name := "c", value := "v", domain := "example.com", path := "/",
    secure := true, httpOnly := false, expirationDate := some 1, storeId := "0" }

/-- Witness for the amended C6 at a concrete expired record. -/
theorem c6_expiry_skip_amended_witness :
    (restoreCookies ([] ++ pastExpCookie :: []) okStore 2).1.details =
      (restoreCookies [] okStore 2).1.details ++
        { name := pastExpCookie.name, domain := pastExpCookie.domain,
          status := Status.skipped, reason := some "Cookie has expired" } ::
          (restoreCookies [] okStore 2).1.details ∧
    (restoreCookies ([] ++ pastExpCookie :: []) okStore 2).2 =
      (restoreCookies [] okStore 2).2 ++ (restoreCookies [] okStore 2).2 ∧
    (restoreCookies ([] ++ pastExpCookie :: []) okStore 2).1.skipped =
      (restoreCookies [] okStore 2).1.skipped + 1 +
        (restoreCookies [] okStore 2).1.skipped :=
  c6_expiry_skip_amended [] [] pastExpCookie okStore 2 1 rfl (by decide) (by decide) rfl

/-- C7: when the primary store-set call fails, an insecure record is retried
exactly once with `secure` forced true and the URL rebuilt with https (a
successful retry reporting "Upgraded to HTTPS"), a secure record is never
retried, and a failed retry or a failed secure record reports `failed` with
the store error message. -/
theorem c7_https_retry (c : Cookie) (store : SetDetails → Except String Unit)
    (now : Rat) (e : String)
    (hns : expiredSkip now c = false)
    (hfail : store (primaryDetails c) = .error e) :
    (∀ rest, (restoreCookies (c :: rest) store now).1.details =
        (restoreStep now store c).1 :: (restoreCookies rest store now).1.details ∧
      (restoreCookies (c :: rest) store now).2 =
        (restoreStep now store c).2 ++ (restoreCookies rest store now).2) ∧
    (c.secure = false → store (retryDetails c) = .ok () →
      restoreStep now store c =
        ({ name := c.name, domain := c.domain, status := .success,
           reason := some "Upgraded to HTTPS" },
         [primaryDetails c, retryDetails c])) ∧
    (c.secure = true →
      restoreStep now store c =
        ({ name := c.name, domain := c.domain, status := .failed,
           reason := some e }, [primaryDetails c])) ∧
    (∀ e2, c.secure = false → store (retryDetails c) = .error e2 →
      restoreStep now store c =
        ({ name := c.name, domain := c.domain, status := .failed,
           reason := some e2 }, [primaryDetails c, retryDetails c])) ∧
    (retryDetails c).secure = true ∧
    (retryDetails c).url = buildUrl true c.domain c.path := by
  refine ⟨fun rest => by rw [restoreCookies_cons]; exact ⟨rfl, rfl⟩, ?_, ?_, ?_, rfl, rfl⟩
  · intro hsec hretry
    simp only [restoreStep, hns, Bool.false_eq_true, if_false, hfail, hsec,
      Bool.not_false, if_true, hretry]
  · intro hsec
    simp only [restoreStep, hns, Bool.false_eq_true, if_false, hfail, hsec,
      Bool.not_true, reduceIte]
  · intro e2 hsec hretry
    simp only [restoreStep, hns, Bool.false_eq_true, if_false, hfail, hsec,
      Bool.not_false, if_true, hretry]

/-- An insecure cookie for the C7 witness. -/
def insecureCookie : Cookie :=
  { name := "c", value := "v", domain := ".example.app", path := "/",
    secure := false, httpOnly := false, storeId := "0" }

/-- A secure cookie for the C7 witness. -/
def secureCookie : Cookie :=
  { name := "c", value := "v", domain := "example.com", path := "/",
    secure := true, httpOnly := false, storeId := "0" }

/-- Witness for C7: an insecure record upgraded on retry, a secure record
never retried, and an insecure record whose retry also fails. -/
theorem c7_https_retry_witness :
    restoreStep 1 secureOnlyStore insecureCookie =
      ({ name := insecureCookie.name, domain := insecureCookie.domain,
         status := .success, reason := some "Upgraded to HTTPS" },
       [primaryDetails insecureCookie, retryDetails insecureCookie]) ∧
    restoreStep 1 failStore secureCookie =
      ({ name := secureCookie.name, domain := secureCookie.domain,
         status := .failed, reason := some "Failed" }, [primaryDetails secureCookie]) ∧
    restoreStep 1 failStore insecureCookie =
      ({ name := insecureCookie.name, domain := insecureCookie.domain,
         status := .failed, reason := some "Failed" },
       [primaryDetails insecureCookie, retryDetails insecureCookie]) :=
  ⟨(c7_https_retry insecureCookie secureOnlyStore 1 "Failed" (by decide)
        (by decide)).2.1 rfl (by decide),
    (c7_https_retry secureCookie failStore 1 "Failed" (by decide)
        (by decide)).2.2.1 rfl,
    (c7_https_retry insecureCookie failStore 1 "Failed" (by decide)
        (by decide)).2.2.2.1 "Failed" rfl (by decide)⟩

/-- C10: the expiry skip fires exactly for a present, nonzero expiration
strictly below the current time, irrespective of the session flag; a record
with expiration exactly 0 always proceeds to a store call; a skipped record
makes no store call. -/
theorem c10_expiry_guard (c : Cookie) (rest : List Cookie)
    (store : SetDetails → Except String Unit) (now : Rat) :
    (restoreCookies (c :: rest) store now).1.details =
      (restoreStep now store c).1 :: (restoreCookies rest store now).1.details ∧
    (restoreCookies (c :: rest) store now).2 =
      (restoreStep now store c).2 ++ (restoreCookies rest store now).2 ∧
    ((restoreStep now store c).1.status = .skipped ↔
      ∃ e, c.expirationDate = some e ∧ e ≠ 0 ∧ e < now) ∧
    (c.expirationDate = some 0 → (restoreStep now store c).2 ≠ []) ∧
    ((restoreStep now store c).1.status = .skipped →
      (restoreStep now store c).2 = []) := by
  refine ⟨by rw [restoreCookies_cons], by rw [restoreCookies_cons], ?_, ?_, ?_⟩
  · cases hes : expiredSkip now c with
    | true =>
      refine iff_of_true ?_ ((expiredSkip_iff now c).mp hes)
      rw [restoreStep, if_pos hes]
    | false =>
      refine iff_of_false ((restoreStep_not_skip now store c hes).1) ?_
      rw [← expiredSkip_iff now c, hes]
      simp
  · intro h0
    have hes : expiredSkip now c = false := by
      rw [expiredSkip, h0]
      simp
    exact (restoreStep_not_skip now store c hes).2
  · intro hsk
    cases hes : expiredSkip now c with
    | true => rw [restoreStep, if_pos hes]
    | false => exact absurd hsk (restoreStep_not_skip now store c hes).1

/-- A session cookie with a nonzero past expiration, for the C10 witness. -/
def sessionPastCookie : Cookie :=
  { name := "c", value := "v", domain := "example.com", path := "/",
    secure := true, httpOnly := false, expirationDate := some 1,
    storeId := "0", session := some true }

/-- Witness for C10: a session-flagged record with a past nonzero expiration
is skipped with no store call, while an expiration of exactly 0 still reaches
the store. -/
theorem c10_expiry_guard_witness :
    (restoreStep 2 okStore sessionPastCookie).1.status = .skipped ∧
    (restoreStep 2 okStore sessionPastCookie).2 = [] ∧
    (restoreStep 2 okStore zeroExpCookie).2 ≠ [] :=
  ⟨(c10_expiry_guard sessionPastCookie [] okStore 2).2.2.1.mpr
      ⟨1, rfl, by decide, by decide⟩,
    (c10_expiry_guard sessionPastCookie [] okStore 2).2.2.2.2
      ((c10_expiry_guard sessionPastCookie [] okStore 2).2.2.1.mpr
        ⟨1, rfl, by decide, by decide⟩),
    (c10_expiry_guard zeroExpCookie [] okStore 2).2.2.2.1 rfl⟩

/-! ### C8: sorting lemmas for the stable descending sort -/

theorem insertByCount_perm (g : DomainGroup) (l : List DomainGroup) :
    (insertByCount g l).Perm (g :: l) := by
  induction l with
  | nil => simp [insertByCount]
  | cons h t ih =>
    rw [insertByCount]
    by_cases hc : h.cookies.length > g.cookies.length
    · rw [if_pos hc]
      exact (ih.cons h).trans (List.Perm.swap g h t)
    · rw [if_neg hc]

theorem sortGroups_perm (gs : List DomainGroup) : (sortGroups gs).Perm gs := by
  induction gs with
  | nil => simp [sortGroups]
  | cons g t ih =>
    rw [sortGroups, List.foldr_cons]
    exact (insertByCount_perm g (sortGroups t)).trans (ih.cons g)

theorem mem_insertByCount (x g : DomainGroup) (l : List DomainGroup) :
    x ∈ insertByCount g l ↔ x = g ∨ x ∈ l := by
  rw [(insertByCount_perm g l).mem_iff, List.mem_cons]

theorem insertByCount_sorted (g : DomainGroup) (l : List DomainGroup)
    (h : List.Sorted (fun a b => b.cookies.length ≤ a.cookies.length) l) :
    List.Sorted (fun a b => b.cookies.length ≤ a.cookies.length)
      (insertByCount g l) := by
  induction l with
  | nil => simp [insertByCount]
  | cons hd t ih =>
    rw [List.sorted_cons] at h
    rw [insertByCount]
    by_cases hc : hd.cookies.length > g.cookies.length
    · rw [if_pos hc, List.sorted_cons]
      refine ⟨?_, ih h.2⟩
      intro b hb
      rcases (mem_insertByCount b g t).mp hb with hbg | hbt
      · rw [hbg]; omega
      · exact h.1 b hbt
    · rw [if_neg hc, List.sorted_cons]
      refine ⟨?_, List.sorted_cons.mpr h⟩
      intro b hb
      rcases List.mem_cons.mp hb with hbh | hbt
      · rw [hbh]; omega
      · have := h.1 b hbt
        omega

theorem sortGroups_sorted (gs : List DomainGroup) :
    List.Sorted (fun a b => b.cookies.length ≤ a.cookies.length) (sortGroups gs) := by
  induction gs with
  | nil => simp [sortGroups]
  | cons g t ih =>
    rw [sortGroups, List.foldr_cons]
    exact insertByCount_sorted g (sortGroups t) ih

theorem insertByCount_filter (g : DomainGroup) (l : List DomainGroup) (k : Nat) :
    (insertByCount g l).filter (fun x => x.cookies.length == k) =
      if g.cookies.length = k then
        g :: l.filter (fun x => x.cookies.length == k)
      else l.filter (fun x => x.cookies.length == k) := by
  induction l with
  | nil =>
    by_cases hk : g.cookies.length = k
    · simp [insertByCount, List.filter_cons, hk]
    · simp [insertByCount, List.filter_cons, hk]
  | cons hd t ih =>
    rw [insertByCount]
    by_cases hc : hd.cookies.length > g.cookies.length
    · rw [if_pos hc, List.filter_cons, ih]
      by_cases hk : g.cookies.length = k
      · have hhd : (hd.cookies.length == k) = false := by
          rw [beq_eq_false_iff_ne]
          omega
        rw [hhd]
        simp only [Bool.false_eq_true, if_false, List.filter_cons, hhd]
      · rw [if_neg hk, if_neg hk, List.filter_cons]
    · rw [if_neg hc, List.filter_cons]
      by_cases hk : g.cookies.length = k
      · have hb : (g.cookies.length == k) = true := beq_iff_eq.mpr hk
        rw [hb, if_pos hk]
        simp
      · have hb : (g.cookies.length == k) = false := beq_eq_false_iff_ne.mpr hk
        rw [hb, if_neg hk]
        simp

theorem sortGroups_filter (gs : List DomainGroup) (k : Nat) :
    (sortGroups gs).filter (fun x => x.cookies.length == k) =
      gs.filter (fun x => x.cookies.length == k) := by
  induction gs with
  | nil => rfl
  | cons g t ih =>
    have hstep : sortGroups (g :: t) = insertByCount g (sortGroups t) := rfl
    rw [hstep, insertByCount_filter, ih]
    by_cases hk : g.cookies.length = k
    · have hb : (g.cookies.length == k) = true := beq_iff_eq.mpr hk
      rw [if_pos hk, List.filter_cons, hb]
      simp
    · have hb : (g.cookies.length == k) = false := beq_eq_false_iff_ne.mpr hk
      rw [if_neg hk, List.filter_cons, hb]
      simp

/-! ### C8: the insertion-ordered domain map -/

/-- First-match lookup in the insertion-ordered domain map (`domainMap.get`).
Keys are unique, so first-match is the match. -/
def lookupGroup : List (String × List Cookie) → String → List Cookie
  | [], _ => []
  | (d0, cs) :: rest, d => if d0 = d then cs else lookupGroup rest d

theorem lookupGroup_addToGroups (gs : List (String × List Cookie)) (d : String)
    (c : Cookie) (x : String) :
    lookupGroup (addToGroups gs d c) x =
      if x = d then lookupGroup gs x ++ [c] else lookupGroup gs x := by
  induction gs with
  | nil =>
    by_cases hx : x = d
    · simp [addToGroups, lookupGroup, hx]
    · simp [addToGroups, lookupGroup, hx, Ne.symm hx]
  | cons q rest ih =>
    obtain ⟨d0, cs0⟩ := q
    rw [addToGroups]
    by_cases h0 : d0 = d
    · rw [if_pos h0]
      simp only [lookupGroup]
      by_cases hd0x : d0 = x
      · have hxd : x = d := hd0x.symm.trans h0
        simp [hd0x, hxd]
      · have hx : ¬ x = d := fun hh => hd0x (h0.trans hh.symm)
        simp [hd0x, hx]
    · rw [if_neg h0]
      simp only [lookupGroup]
      by_cases hd0x : d0 = x
      · have hx : ¬ x = d := fun hh => h0 (hd0x.trans hh)
        simp [hd0x, hx]
      · rw [ih]
        simp [hd0x]

theorem mem_keys_addToGroups (gs : List (String × List Cookie)) (d : String)
    (c : Cookie) (x : String) :
    x ∈ (addToGroups gs d c).map Prod.fst ↔ x ∈ gs.map Prod.fst ∨ x = d := by
  induction gs with
  | nil => simp [addToGroups]
  | cons q rest ih =>
    obtain ⟨d0, cs0⟩ := q
    rw [addToGroups]
    by_cases h0 : d0 = d
    · rw [if_pos h0]
      simp only [List.map_cons, List.mem_cons]
      rw [h0]
      tauto
    · rw [if_neg h0]
      simp only [List.map_cons, List.mem_cons, ih]
      tauto

theorem nodup_keys_addToGroups (gs : List (String × List Cookie)) (d : String)
    (c : Cookie) (h : (gs.map Prod.fst).Nodup) :
    ((addToGroups gs d c).map Prod.fst).Nodup := by
  induction gs with
  | nil => simp [addToGroups]
  | cons q rest ih =>
    obtain ⟨d0, cs0⟩ := q
    simp only [List.map_cons, List.nodup_cons] at h
    rw [addToGroups]
    by_cases h0 : d0 = d
    · rw [if_pos h0]
      simp only [List.map_cons, List.nodup_cons]
      exact ⟨h.1, h.2⟩
    · rw [if_neg h0]
      simp only [List.map_cons, List.nodup_cons]
      refine ⟨?_, ih h.2⟩
      intro hmem
      rcases (mem_keys_addToGroups rest d c d0).mp hmem with hm | he
      · exact h.1 hm
      · exact h0 he

theorem mem_eq_lookupGroup (gs : List (String × List Cookie))
    (h : (gs.map Prod.fst).Nodup) (p : String × List Cookie) (hp : p ∈ gs) :
    p.2 = lookupGroup gs p.1 := by
  induction gs with
  | nil => cases hp
  | cons q rest ih =>
    obtain ⟨d0, cs0⟩ := q
    simp only [List.map_cons, List.nodup_cons] at h
    rcases List.mem_cons.mp hp with hpe | hpm
    · subst hpe
      simp [lookupGroup]
    · have hne : d0 ≠ p.1 := by
        intro he
        apply h.1
        rw [he]
        exact List.mem_map.mpr ⟨p, hpm, rfl⟩
      rw [show lookupGroup ((d0, cs0) :: rest) p.1 =
          if d0 = p.1 then cs0 else lookupGroup rest p.1 from rfl, if_neg hne]
      exact ih h.2 hpm

theorem lookupGroup_foldl (l : List Cookie) :
    ∀ (gs : List (String × List Cookie)) (d : String),
      lookupGroup
          (l.foldl (fun gs c => addToGroups gs (normalizeDomain c.domain) c) gs) d =
        lookupGroup gs d ++ l.filter (fun c => normalizeDomain c.domain == d) := by
  induction l with
  | nil => intro gs d; simp
  | cons c t ih =>
    intro gs d
    rw [List.foldl_cons, ih, lookupGroup_addToGroups, List.filter_cons]
    by_cases hd : normalizeDomain c.domain = d
    · have hb : (normalizeDomain c.domain == d) = true := beq_iff_eq.mpr hd
      rw [if_pos hd.symm, hb]
      simp [List.append_assoc]
    · have hb : (normalizeDomain c.domain == d) = false := beq_eq_false_iff_ne.mpr hd
      rw [if_neg (fun hh => hd hh.symm), hb]
      simp

theorem mem_keys_foldl (l : List Cookie) :
    ∀ (gs : List (String × List Cookie)) (x : String),
      x ∈ (l.foldl (fun gs c => addToGroups gs (normalizeDomain c.domain) c) gs).map
          Prod.fst ↔
        x ∈ gs.map Prod.fst ∨ x ∈ l.map fun c => normalizeDomain c.domain := by
  induction l with
  | nil => intro gs x; simp
  | cons c t ih =>
    intro gs x
    rw [List.foldl_cons, ih, mem_keys_addToGroups]
    simp only [List.map_cons, List.mem_cons]
    tauto

theorem nodup_keys_foldl (l : List Cookie) :
    ∀ (gs : List (String × List Cookie)), (gs.map Prod.fst).Nodup →
      ((l.foldl (fun gs c => addToGroups gs (normalizeDomain c.domain) c) gs).map
          Prod.fst).Nodup := by
  induction l with
  | nil => intro gs h; exact h
  | cons c t ih =>
    intro gs h
    rw [List.foldl_cons]
    exact ih _ (nodup_keys_addToGroups gs _ c h)

theorem lookupGroup_buildGroups (cookies : List Cookie) (d : String) :
    lookupGroup (buildGroups cookies) d =
      cookies.filter fun c => normalizeDomain c.domain == d := by
  rw [buildGroups, lookupGroup_foldl]
  rfl

theorem mem_keys_buildGroups (cookies : List Cookie) (x : String) :
    x ∈ (buildGroups cookies).map Prod.fst ↔
      x ∈ cookies.map fun c => normalizeDomain c.domain := by
  rw [buildGroups, mem_keys_foldl]
  simp

theorem nodup_keys_buildGroups (cookies : List Cookie) :
    ((buildGroups cookies).map Prod.fst).Nodup := by
  rw [buildGroups]
  exact nodup_keys_foldl cookies [] (by simp)

/-- C8: grouping normalizes domains by stripping one leading dot (so `.a.com`
and `a.com` records share one group), every group is selected by default, each
group holds exactly the records of its normalized domain in input order, group
domains are exactly the normalized input domains without duplicates, the
result is sorted by descending member count, and the stable sort keeps
equal-count groups in first-encountered order. -/
theorem c8_domain_grouping (cookies : List Cookie) :
    (∀ g ∈ groupCookiesByDomain cookies, g.selected = true) ∧
    (∀ g ∈ groupCookiesByDomain cookies,
      g.cookies = cookies.filter fun c => normalizeDomain c.domain == g.domain) ∧
    ((groupCookiesByDomain cookies).map fun g => g.domain).Nodup ∧
    (∀ d, d ∈ ((groupCookiesByDomain cookies).map fun g => g.domain) ↔
      d ∈ cookies.map fun c => normalizeDomain c.domain) ∧
    List.Sorted (fun a b => b.cookies.length ≤ a.cookies.length)
      (groupCookiesByDomain cookies) ∧
    (∀ k, (groupCookiesByDomain cookies).filter (fun g => g.cookies.length == k) =
      ((buildGroups cookies).map fun p => DomainGroup.mk p.1 p.2 true).filter
        fun g => g.cookies.length == k) := by
  have hperm : (groupCookiesByDomain cookies).Perm
      ((buildGroups cookies).map fun p => DomainGroup.mk p.1 p.2 true) :=
    sortGroups_perm _
  have hmem : ∀ g, g ∈ groupCookiesByDomain cookies ↔
      ∃ p ∈ buildGroups cookies, DomainGroup.mk p.1 p.2 true = g := by
    intro g
    rw [hperm.mem_iff, List.mem_map]
  have hmapdom : ((groupCookiesByDomain cookies).map fun g => g.domain).Perm
      ((buildGroups cookies).map Prod.fst) := by
    have hm := hperm.map fun g => g.domain
    rwa [List.map_map] at hm
  refine ⟨?_, ?_, ?_, ?_, sortGroups_sorted _, fun k => sortGroups_filter _ k⟩
  · intro g hg
    obtain ⟨p, _, he⟩ := (hmem g).mp hg
    rw [← he]
  · intro g hg
    obtain ⟨p, hp, he⟩ := (hmem g).mp hg
    rw [← he]
    show p.2 = _
    rw [mem_eq_lookupGroup (buildGroups cookies) (nodup_keys_buildGroups cookies) p hp,
      lookupGroup_buildGroups]
  · exact hmapdom.nodup_iff.mpr (nodup_keys_buildGroups cookies)
  · intro d
    rw [hmapdom.mem_iff, mem_keys_buildGroups]

/-- A record whose domain carries a leading dot. -/
def dotACookie : Cookie :=
  { name := "c1", value := "v", domain := ".a.com", path := "/",
    secure := true, httpOnly := false, storeId := "0" }

/-- A record with the same domain without the dot. -/
def plainACookie : Cookie :=
  { name := "c2", value := "v", domain := "a.com", path := "/",
    secure := true, httpOnly := false, storeId := "0" }

/-- Witness for C8: `.a.com` and `a.com` records land in the single group
named `a.com`, which is selected and holds both records in input order. -/
theorem c8_domain_grouping_witness :
    (DomainGroup.mk "a.com" [dotACookie, plainACookie] true).selected = true ∧
    (DomainGroup.mk "a.com" [dotACookie, plainACookie] true).cookies =
      [dotACookie, plainACookie].filter
        (fun c => normalizeDomain c.domain ==
          (DomainGroup.mk "a.com" [dotACookie, plainACookie] true).domain) ∧
    groupCookiesByDomain [dotACookie, plainACookie] =
      [DomainGroup.mk "a.com" [dotACookie, plainACookie] true] :=
  ⟨(c8_domain_grouping [dotACookie, plainACookie]).1
      (DomainGroup.mk "a.com" [dotACookie, plainACookie] true) (by decide),
    (c8_domain_grouping [dotACookie, plainACookie]).2.1
      (DomainGroup.mk "a.com" [dotACookie, plainACookie] true) (by decide),
    by decide⟩

end CookieVault
